import Mathlib

/-!
Verification of the invoice-analysis front-end
(`src/App.tsx`, `src/components/FileUpload.tsx` and
`src/services/geminiService.ts`) against its specification.

The embedding models the per-file analysis orchestration and state
reconciliation of `App.tsx`: React state is an explicit `AppState`
record, the functional `setState` updates become pure state
transformers, and `await`ed promise completions of the batch are
folded over an arbitrary completion order.  The external analysis
call is a parameter `outcome : File → Except Thrown AnalysisResult`
describing how each document's `analyzeInvoice` promise settles.
-/

namespace InvoiceApp

/-- `AnalysisDecision` from `src/types.ts`. -/
inductive AnalysisDecision
  | DEFERIDO
  | INDEFERIDO
deriving DecidableEq, Repr

/-- `AnalysisResult` from `src/types.ts`: the structured verdict. -/
structure AnalysisResult where
  status : AnalysisDecision
  summary : String
  issues : List String
deriving DecidableEq, Repr

/-- `HistoryItem` from `src/types.ts`. -/
structure HistoryItem where
  fileName : String
  timestamp : String
  result : AnalysisResult
deriving DecidableEq, Repr

/-- A browser `File` as the app observes it: name, byte size and
declared MIME type. The content is opaque to all modelled logic. -/
structure File where
  name : String
  size : Nat
  type : String
deriving DecidableEq, Repr

/-- `FileStatus` from `src/App.tsx`. -/
inductive FileStatus
  | analyzing
  | success
  | error
deriving DecidableEq, Repr

/-- `AppStatus` from `src/App.tsx`. -/
inductive AppStatus
  | idle
  | analyzing
  | finished
deriving DecidableEq, Repr

/-- `FileAnalysisState` from `src/App.tsx`. -/
structure FileAnalysisState where
  status : FileStatus
  result : Option AnalysisResult
  error : Option String
deriving DecidableEq, Repr

/-- A JavaScript thrown value as `runAnalysisForFile`'s catch clause
inspects it: an `Error` carrying a message, or anything else. -/
inductive Thrown
  | error (message : String)
  | other
deriving DecidableEq, Repr

/-- The message the catch clause of `runAnalysisForFile` derives:
`err instanceof Error ? err.message : 'Ocorreu um erro desconhecido.'`. -/
def Thrown.displayMessage : Thrown → String
  | .error m => m
  | .other => "Ocorreu um erro desconhecido."

/-- The React state of `App` in `src/App.tsx`.  `analysisStates` is the
insertion-ordered JS `Map<string, FileAnalysisState>` as an association
list.  `storage` models the content persisted under `HISTORY_KEY` in
`localStorage` (the deserialised sequence).  `calls` is ghost
instrumentation: the names of the documents for which an
`analyzeInvoice` request has been issued, in issue order. -/
structure AppState where
  files : List File
  appStatus : AppStatus
  analysisStates : List (String × FileAnalysisState)
  history : List HistoryItem
  storage : Option (List HistoryItem)
  calls : List String
deriving DecidableEq, Repr

/-- JS `Map.prototype.set`: replace the value in place when the key is
present (keeping insertion order), otherwise append the pair. -/
def mapSet (m : List (String × FileAnalysisState)) (k : String)
    (v : FileAnalysisState) : List (String × FileAnalysisState) :=
  match m with
  | [] => [(k, v)]
  | (k1, v1) :: rest =>
      if k1 = k then (k, v) :: rest else (k1, v1) :: mapSet rest k v

/-- JS `Map.prototype.get`. -/
def mapGet (m : List (String × FileAnalysisState)) (k : String) :
    Option FileAnalysisState :=
  match m with
  | [] => none
  | (k1, v1) :: rest => if k1 = k then some v1 else mapGet rest k

/-- The success branch of `runAnalysisForFile`: set the file's map
entry to success with the verdict, build the new `HistoryItem`,
prepend it to the history, and try to persist the full updated
sequence; a rejected `localStorage.setItem` (modelled by
`persistOk = false`) is logged and absorbed, leaving the previously
persisted content in place. -/
def recordSuccess (persistOk : Bool) (ts : String) (f : File)
    (r : AnalysisResult) (s : AppState) : AppState :=
  let s1 :=
    { s with analysisStates :=
        mapSet s.analysisStates f.name ⟨.success, some r, none⟩ }
  let newHistoryItem : HistoryItem := ⟨f.name, ts, r⟩
  let updatedHistory := newHistoryItem :: s1.history
  { s1 with
    history := updatedHistory,
    storage := if persistOk then some updatedHistory else s1.storage }

/-- The catch branch of `runAnalysisForFile`: set the file's map entry
to error with the user-facing message. -/
def recordFailure (f : File) (err : Thrown) (s : AppState) : AppState :=
  let entry : FileAnalysisState :=
    ⟨.error, none, some ("Falha na análise: " ++ err.displayMessage)⟩
  { s with analysisStates := mapSet s.analysisStates f.name entry }

/-- `runAnalysisForFile` from `src/App.tsx`.  The result type
`Except Thrown AppState` records whether the async function rejects:
the try block awaits `analyzeInvoice file` (its settling described by
`outcome`) and on success performs the success updates; the catch
clause converts any thrown value into the failure update and returns
normally.  Issuing the call is recorded in the ghost `calls` log. -/
def runAnalysisForFile (outcome : File → Except Thrown AnalysisResult)
    (persistOk : Bool) (ts : String) (s : AppState) (f : File) :
    Except Thrown AppState :=
  let s0 := { s with calls := s.calls ++ [f.name] }
  match (outcome f).map (fun r => recordSuccess persistOk ts f r s0) with
  | .ok s1 => .ok s1
  | .error err => .ok (recordFailure f err s0)

/-- The state transformer applied when one document's analysis
settles: `runAnalysisForFile` never rejects, so its `.ok` payload is
the next state. -/
def settle (outcome : File → Except Thrown AnalysisResult)
    (persistOk : Bool) (ts : String) (s : AppState) (f : File) : AppState :=
  match runAnalysisForFile outcome persistOk ts s f with
  | .ok s1 => s1
  | .error _ => s

/-- The terminal map entry a settled call produces for its document. -/
def terminalState (res : Except Thrown AnalysisResult) : FileAnalysisState :=
  match res with
  | .ok r => ⟨.success, some r, none⟩
  | .error err =>
      ⟨.error, none, some ("Falha na análise: " ++ err.displayMessage)⟩

/-- The start of `handleAnalyzeClick` after the empty-selection guard:
status becomes `analyzing` and a fresh map gives every selected file an
`analyzing` entry. -/
def batchInit (s : AppState) : AppState :=
  { s with
    appStatus := .analyzing,
    analysisStates :=
      s.files.foldl (fun m f => mapSet m f.name ⟨.analyzing, none, none⟩) [] }

/-- `handleAnalyzeClick` from `src/App.tsx`.  An empty selection
returns immediately.  Otherwise all per-file analyses are launched and
their completions, arriving in the arbitrary order `order` (in the
real code a permutation of `files`), are reconciled one by one; only
after `Promise.all` resolves — all calls settled — is the status set
to `finished`. -/
def handleAnalyzeClick (outcome : File → Except Thrown AnalysisResult)
    (persistOk : Bool) (ts : String) (order : List File) (s : AppState) :
    AppState :=
  if s.files = [] then s
  else
    let s2 := order.foldl (settle outcome persistOk ts) (batchInit s)
    { s2 with appStatus := .finished }

/-- The first two updates of `handleRetryAnalysis`: status `analyzing`
and the retried file's entry reset to `analyzing`. -/
def retryMark (f : File) (s : AppState) : AppState :=
  { s with
    appStatus := .analyzing,
    analysisStates := mapSet s.analysisStates f.name ⟨.analyzing, none, none⟩ }

/-- `handleRetryAnalysis` from `src/App.tsx`: mark the file as
analyzing, await one re-issued `runAnalysisForFile` for it, then set
the status to `finished`.  The source performs these steps
unconditionally for whatever file it is handed. -/
def handleRetryAnalysis (outcome : File → Except Thrown AnalysisResult)
    (persistOk : Bool) (ts : String) (f : File) (s : AppState) : AppState :=
  let s2 := settle outcome persistOk ts (retryMark f s) f
  { s2 with appStatus := .finished }

/-- The history-loading `useEffect` of `src/App.tsx`: read the
persisted blob; when present, deserialise it (`parse` models
`JSON.parse`, `none` a thrown `SyntaxError`) and install the result;
the catch clause logs and deletes the persisted blob.  The result is
the in-memory history (initially `[]`) paired with the blob left in
storage. -/
def loadHistory (parse : String → Option (List HistoryItem))
    (stored : Option String) : List HistoryItem × Option String :=
  match stored with
  | none => ([], none)
  | some savedHistory =>
      match parse savedHistory with
      | some h => (h, some savedHistory)
      | none => ([], none)

/-- `processFiles` from `src/components/FileUpload.tsx` as a function
of the current selection and the incoming `FileList`: keep only files
whose declared type is `application/pdf`; when any survive, append
each that no already-kept file matches by name and size. -/
def processFiles (selectedFiles : List File) (newFiles : List File) :
    List File :=
  let pdfFiles := newFiles.filter (fun f => f.type == "application/pdf")
  if pdfFiles = [] then selectedFiles
  else
    pdfFiles.foldl
      (fun updatedFiles newFile =>
        if updatedFiles.any (fun existingFile =>
            existingFile.name == newFile.name &&
            existingFile.size == newFile.size)
        then updatedFiles
        else updatedFiles ++ [newFile])
      selectedFiles

/-- Modelled from the spec (§4.1 File Selection Store `add`): append
each incoming PDF document whose (name, size) pair is not already
present, existing items first in their order, then the newly added
ones in input order. -/
def addSpec (sel : List File) (inc : List File) : List File :=
  inc.foldl
    (fun acc f =>
      if f.type == "application/pdf" &&
          !(acc.any (fun e => e.name == f.name && e.size == f.size))
      then acc ++ [f]
      else acc)
    sel

/-- A JSON value, as `JSON.parse` produces it (numbers restricted to
integers: no reply used in this development carries a fraction or an
exponent). -/
inductive JsonValue
  | null
  | bool (b : Bool)
  | num (n : Int)
  | str (s : String)
  | arr (items : List JsonValue)
  | obj (fields : List (String × JsonValue))

/-- JSON insignificant whitespace. -/
def isJsonWs (c : Char) : Bool :=
  c = ' ' || c = '\n' || c = '\t' || c = '\r'

/-- Drop leading JSON whitespace. -/
def skipWs : List Char → List Char
  | [] => []
  | c :: cs => if isJsonWs c then skipWs cs else c :: cs

/-- Read a JSON string body up to the closing quote (the modelled
fragment has no escape sequences). -/
def parseStringBody : List Char → Option (List Char × List Char)
  | [] => none
  | c :: cs =>
      if c = '"' then some ([], cs)
      else if c = '\\' then none
      else
        match parseStringBody cs with
        | some (body, rest) => some (c :: body, rest)
        | none => none

/-- Split a maximal run of decimal digits off the front. -/
def takeDigits : List Char → List Char × List Char
  | [] => ([], [])
  | c :: cs =>
      if c.isDigit then
        let p := takeDigits cs
        (c :: p.1, p.2)
      else ([], c :: cs)

/-- Numeric value of a digit run. -/
def digitsToNat (ds : List Char) : Nat :=
  ds.foldl (fun acc c => acc * 10 + (c.toNat - 48)) 0

/-- The three parsing tasks of the recursive-descent JSON parser:
a single value, the elements of a nonempty array, or the members of a
nonempty object.  A single mode-indexed function keeps the recursion
structural on the fuel so that the kernel can evaluate it. -/
inductive PMode
  | val
  | elems
  | fields

/-- The result matching each parsing task. -/
inductive PRes
  | val (v : JsonValue)
  | elems (vs : List JsonValue)
  | fields (fs : List (String × JsonValue))

/-- Recursive-descent JSON parser, fuelled by an upper bound on the
recursion depth.  In mode `val` it parses one value; in mode `elems`
the comma-separated elements of a nonempty array including the closing
bracket; in mode `fields` the members of a nonempty object including
the closing brace. -/
def parseCore : Nat → PMode → List Char → Option (PRes × List Char)
  | 0, _, _ => none
  | Nat.succ fuel, PMode.val, cs0 =>
      match skipWs cs0 with
      | 'n' :: 'u' :: 'l' :: 'l' :: rest => some (.val .null, rest)
      | 't' :: 'r' :: 'u' :: 'e' :: rest => some (.val (.bool true), rest)
      | 'f' :: 'a' :: 'l' :: 's' :: 'e' :: rest =>
          some (.val (.bool false), rest)
      | '"' :: rest =>
          match parseStringBody rest with
          | some (body, rest2) => some (.val (.str (String.mk body)), rest2)
          | none => none
      | '[' :: rest =>
          match skipWs rest with
          | ']' :: rest2 => some (.val (.arr []), rest2)
          | _ =>
              match parseCore fuel PMode.elems rest with
              | some (.elems items, rest2) => some (.val (.arr items), rest2)
              | _ => none
      | '{' :: rest =>
          match skipWs rest with
          | '}' :: rest2 => some (.val (.obj []), rest2)
          | _ =>
              match parseCore fuel PMode.fields rest with
              | some (.fields fs, rest2) => some (.val (.obj fs), rest2)
              | _ => none
      | '-' :: rest =>
          match takeDigits rest with
          | ([], _) => none
          | (ds, rest2) => some (.val (.num (-(digitsToNat ds : Int))), rest2)
      | c :: rest =>
          if c.isDigit then
            let p := takeDigits (c :: rest)
            some (.val (.num (digitsToNat p.1)), p.2)
          else none
      | [] => none
  | Nat.succ fuel, PMode.elems, cs =>
      match parseCore fuel PMode.val cs with
      | some (.val v, rest) =>
          (match skipWs rest with
           | ',' :: rest2 =>
               match parseCore fuel PMode.elems rest2 with
               | some (.elems vs, rest3) => some (.elems (v :: vs), rest3)
               | _ => none
           | ']' :: rest2 => some (.elems [v], rest2)
           | _ => none)
      | _ => none
  | Nat.succ fuel, PMode.fields, cs =>
      match skipWs cs with
      | '"' :: rest =>
          match parseStringBody rest with
          | none => none
          | some (key, rest2) =>
              match skipWs rest2 with
              | ':' :: rest3 =>
                  (match parseCore fuel PMode.val rest3 with
                   | some (.val v, rest4) =>
                       (match skipWs rest4 with
                        | ',' :: rest5 =>
                            match parseCore fuel PMode.fields rest5 with
                            | some (.fields fs, rest6) =>
                                some (.fields ((String.mk key, v) :: fs),
                                  rest6)
                            | _ => none
                        | '}' :: rest5 =>
                            some (.fields [(String.mk key, v)], rest5)
                        | _ => none)
                   | _ => none)
              | _ => none
      | _ => none

/-- Model of the platform's `JSON.parse` on the fragment this
development uses (integer numbers, escape-free strings): `none` stands
for a thrown `SyntaxError`. -/
def jsonParse (cs : List Char) : Option JsonValue :=
  match parseCore (cs.length + 1) PMode.val cs with
  | some (.val v, rest) => if skipWs rest = [] then some v else none
  | _ => none

/-- JavaScript `String.prototype.trim` over the character list:
strip leading and trailing whitespace. -/
def jsTrim (cs : List Char) : List Char :=
  (skipWs (skipWs cs).reverse).reverse

/-- The failure kinds of the Analysis Client (§7 of the spec):
the missing-credential throw and the parse-failure throw of
`analyzeInvoice`, and a rejection of the underlying
`generateContent` transport. -/
inductive ClientError
  | configurationError (message : String)
  | responseFormatError (message : String)
  | transportError (message : String)
deriving DecidableEq, Repr

/-- `analyzeInvoice` from `src/services/geminiService.ts`.
`apiKey` models `process.env.API_KEY` (`none` unset; the source's
falsy test also treats the empty string as missing), `serviceReply`
the settling of `ai.models.generateContent` with the reply text — a
rejection there propagates out uncaught.  The reply text is trimmed
and `JSON.parse`d; a parse throw becomes the format error.  The
source's `jsonResult as AnalysisResult` cast performs no validation,
so the parsed JSON value is returned verbatim. -/
def analyzeInvoice (apiKey : Option String)
    (serviceReply : Except String String) : Except ClientError JsonValue :=
  if apiKey = none ∨ apiKey = some "" then
    .error (.configurationError
      "API key not found. Please set the API_KEY environment variable.")
  else
    match serviceReply with
    | .error m => .error (.transportError m)
    | .ok text =>
        let rawText := jsTrim text.data
        match jsonParse rawText with
        | some jsonResult => .ok jsonResult
        | none =>
            .error (.responseFormatError
              "A resposta da IA não estava no formato JSON esperado.")

/-- Whether a JSON value is a string. -/
def isStringValue : JsonValue → Bool
  | .str _ => true
  | _ => false

/-- Whether a JSON value conforms to the `schema` constant of
`src/services/geminiService.ts`: an object with a `status` string
drawn from the decision enum, a `summary` string, and an `issues`
array of strings. -/
def matchesSchema (v : JsonValue) : Bool :=
  match v with
  | .obj fields =>
      (match fields.lookup "status" with
       | some (.str d) => d == "DEFERIDO" || d == "INDEFERIDO"
       | _ => false) &&
      (match fields.lookup "summary" with
       | some (.str _) => true
       | _ => false) &&
      (match fields.lookup "issues" with
       | some (.arr items) => items.all isStringValue
       | _ => false)
  | _ => false

/-- Whether a settled call is a failure. -/
def isFailure : Except Thrown AnalysisResult → Bool
  | .error _ => true
  | .ok _ => false

/-- Whether the state map shows document `f` as FAILED. -/
def failedB (m : List (String × FileAnalysisState)) (f : File) : Bool :=
  match mapGet m f.name with
  | some st => st.status == FileStatus.error
  | none => false

/-- Whether the state map shows document `f` as SUCCEEDED. -/
def succeededB (m : List (String × FileAnalysisState)) (f : File) : Bool :=
  match mapGet m f.name with
  | some st => st.status == FileStatus.success
  | none => false

theorem mapGet_mapSet_self (m : List (String × FileAnalysisState))
    (k : String) (v : FileAnalysisState) :
    mapGet (mapSet m k v) k = some v := by
  induction m with
  | nil => simp [mapSet, mapGet]
  | cons hd tl ih =>
      obtain ⟨k1, v1⟩ := hd
      by_cases h : k1 = k
      · simp [mapSet, mapGet, h]
      · simp [mapSet, mapGet, h, ih]

theorem mapGet_mapSet_ne (m : List (String × FileAnalysisState))
    (k k2 : String) (v : FileAnalysisState) (h : k2 ≠ k) :
    mapGet (mapSet m k v) k2 = mapGet m k2 := by
  induction m with
  | nil => simp [mapSet, mapGet, Ne.symm h]
  | cons hd tl ih =>
      obtain ⟨k1, v1⟩ := hd
      by_cases h1 : k1 = k
      · subst h1
        simp [mapSet, mapGet, Ne.symm h]
      · by_cases h2 : k1 = k2 <;> simp [mapSet, mapGet, h1, h2, h, ih]

theorem settle_of_ok (o : File → Except Thrown AnalysisResult)
    (p : Bool) (t : String) (s : AppState) (f : File) (r : AnalysisResult)
    (h : o f = .ok r) :
    settle o p t s f =
      recordSuccess p t f r { s with calls := s.calls ++ [f.name] } := by
  simp [settle, runAnalysisForFile, h, Except.map]

theorem settle_of_error (o : File → Except Thrown AnalysisResult)
    (p : Bool) (t : String) (s : AppState) (f : File) (e : Thrown)
    (h : o f = .error e) :
    settle o p t s f =
      recordFailure f e { s with calls := s.calls ++ [f.name] } := by
  simp [settle, runAnalysisForFile, h, Except.map]

theorem settle_appStatus (o : File → Except Thrown AnalysisResult)
    (p : Bool) (t : String) (s : AppState) (f : File) :
    (settle o p t s f).appStatus = s.appStatus := by
  cases h : o f with
  | ok r => rw [settle_of_ok o p t s f r h]; simp [recordSuccess]
  | error e => rw [settle_of_error o p t s f e h]; simp [recordFailure]

theorem settle_files (o : File → Except Thrown AnalysisResult)
    (p : Bool) (t : String) (s : AppState) (f : File) :
    (settle o p t s f).files = s.files := by
  cases h : o f with
  | ok r => rw [settle_of_ok o p t s f r h]; simp [recordSuccess]
  | error e => rw [settle_of_error o p t s f e h]; simp [recordFailure]

theorem settle_calls (o : File → Except Thrown AnalysisResult)
    (p : Bool) (t : String) (s : AppState) (f : File) :
    (settle o p t s f).calls = s.calls ++ [f.name] := by
  cases h : o f with
  | ok r => rw [settle_of_ok o p t s f r h]; simp [recordSuccess]
  | error e => rw [settle_of_error o p t s f e h]; simp [recordFailure]

theorem settle_mapGet_self (o : File → Except Thrown AnalysisResult)
    (p : Bool) (t : String) (s : AppState) (f : File) :
    mapGet (settle o p t s f).analysisStates f.name =
      some (terminalState (o f)) := by
  cases h : o f with
  | ok r =>
      rw [settle_of_ok o p t s f r h]
      simp [recordSuccess, terminalState, mapGet_mapSet_self]
  | error e =>
      rw [settle_of_error o p t s f e h]
      simp [recordFailure, terminalState, mapGet_mapSet_self]

theorem settle_mapGet_ne (o : File → Except Thrown AnalysisResult)
    (p : Bool) (t : String) (s : AppState) (f : File) (k : String)
    (h : k ≠ f.name) :
    mapGet (settle o p t s f).analysisStates k =
      mapGet s.analysisStates k := by
  cases h2 : o f with
  | ok r =>
      rw [settle_of_ok o p t s f r h2]
      simp [recordSuccess, mapGet_mapSet_ne _ _ _ _ h]
  | error e =>
      rw [settle_of_error o p t s f e h2]
      simp [recordFailure, mapGet_mapSet_ne _ _ _ _ h]

theorem foldl_settle_appStatus (o : File → Except Thrown AnalysisResult)
    (p : Bool) (t : String) (l : List File) (s : AppState) :
    (l.foldl (settle o p t) s).appStatus = s.appStatus := by
  induction l generalizing s with
  | nil => rfl
  | cons f tl ih => simp only [List.foldl_cons, ih, settle_appStatus]

theorem foldl_settle_mapGet_notmem (o : File → Except Thrown AnalysisResult)
    (p : Bool) (t : String) (l : List File) (s : AppState) (k : String)
    (h : ∀ g ∈ l, g.name ≠ k) :
    mapGet (l.foldl (settle o p t) s).analysisStates k =
      mapGet s.analysisStates k := by
  induction l generalizing s with
  | nil => rfl
  | cons f tl ih =>
      simp only [List.foldl_cons]
      rw [ih _ (fun g hg => h g (List.mem_cons_of_mem _ hg))]
      exact settle_mapGet_ne o p t s f k
        (Ne.symm (h f (List.mem_cons_self _ _)))

theorem foldl_settle_mapGet_mem (o : File → Except Thrown AnalysisResult)
    (p : Bool) (t : String) (l : List File) (s : AppState) (f : File)
    (hnd : (l.map File.name).Nodup) (hmem : f ∈ l) :
    mapGet (l.foldl (settle o p t) s).analysisStates f.name =
      some (terminalState (o f)) := by
  induction l generalizing s with
  | nil => cases hmem
  | cons g tl ih =>
      simp only [List.map_cons, List.nodup_cons] at hnd
      obtain ⟨hg, htl⟩ := hnd
      rcases List.mem_cons.mp hmem with rfl | hmem2
      · simp only [List.foldl_cons]
        rw [foldl_settle_mapGet_notmem o p t tl _ f.name
          (fun x hx hEq => hg (hEq ▸ List.mem_map_of_mem File.name hx))]
        exact settle_mapGet_self o p t s f
      · simp only [List.foldl_cons]
        exact ih _ htl hmem2

theorem terminal_status_failed (res : Except Thrown AnalysisResult) :
    ((terminalState res).status == FileStatus.error) = isFailure res := by
  cases res <;> rfl

theorem terminal_status_succeeded (res : Except Thrown AnalysisResult) :
    ((terminalState res).status == FileStatus.success) = !isFailure res := by
  cases res <;> rfl

theorem batchInit_appStatus (s : AppState) :
    (batchInit s).appStatus = AppStatus.analyzing := rfl

theorem foldl_over_filter {α β : Type} (p : α → Bool) (g : β → α → β)
    (l : List α) (b : β) :
    (l.filter p).foldl g b =
      l.foldl (fun acc x => if p x then g acc x else acc) b := by
  induction l generalizing b with
  | nil => rfl
  | cons x tl ih =>
      by_cases h : p x <;> simp [List.filter_cons, h, ih]

theorem foldl_ext {α β : Type} (g1 g2 : β → α → β)
    (h : ∀ b a, g1 b a = g2 b a) (l : List α) (b : β) :
    l.foldl g1 b = l.foldl g2 b := by
  have : g1 = g2 := funext fun b => funext fun a => h b a
  rw [this]

theorem addSpec_of_no_pdf (sel inc : List File)
    (h : ∀ f ∈ inc, (f.type == "application/pdf") = false) :
    addSpec sel inc = sel := by
  induction inc generalizing sel with
  | nil => rfl
  | cons x tl ih =>
      have hx := h x (List.mem_cons_self _ _)
      simp only [addSpec, List.foldl_cons, hx, Bool.false_and, if_neg]
      exact ih sel (fun f hf => h f (List.mem_cons_of_mem _ hf))

theorem processFiles_eq_addSpec (sel inc : List File) :
    processFiles sel inc = addSpec sel inc := by
  have main :
      (inc.filter (fun f => f.type == "application/pdf")).foldl
        (fun updatedFiles newFile =>
          if updatedFiles.any (fun existingFile =>
              existingFile.name == newFile.name &&
              existingFile.size == newFile.size)
          then updatedFiles
          else updatedFiles ++ [newFile]) sel
      = addSpec sel inc := by
    rw [foldl_over_filter]
    refine foldl_ext _ _ (fun acc x => ?_) inc sel
    by_cases h1 : x.type == "application/pdf" <;>
      by_cases h2 : acc.any (fun e => e.name == x.name && e.size == x.size) <;>
        simp [h1, h2]
  by_cases he : inc.filter (fun f => f.type == "application/pdf") = []
  · have h2 : ∀ f ∈ inc, (f.type == "application/pdf") = false := by
      intro f hf
      by_contra hc
      have : f ∈ inc.filter (fun f => f.type == "application/pdf") :=
        List.mem_filter.mpr ⟨hf, by revert hc; cases f.type == "application/pdf" <;> simp⟩
      rw [he] at this
      cases this
    rw [addSpec_of_no_pdf sel inc h2]
    simp [processFiles, he]
  · rw [← main]
    simp [processFiles, he]

theorem mem_dedup_foldl (l sel : List File) (f : File)
    (h : f ∈ l.foldl
      (fun updatedFiles newFile =>
        if updatedFiles.any (fun existingFile =>
            existingFile.name == newFile.name &&
            existingFile.size == newFile.size)
        then updatedFiles
        else updatedFiles ++ [newFile]) sel) :
    f ∈ sel ∨ f ∈ l := by
  induction l generalizing sel with
  | nil => exact Or.inl h
  | cons x tl ih =>
      simp only [List.foldl_cons] at h
      rcases ih _ h with h1 | h1
      · by_cases hd : sel.any (fun existingFile =>
            existingFile.name == x.name && existingFile.size == x.size)
        · rw [if_pos hd] at h1
          exact Or.inl h1
        · rw [if_neg hd] at h1
          rcases List.mem_append.mp h1 with h2 | h2
          · exact Or.inl h2
          · right
            rw [List.mem_singleton.mp h2]
            exact List.mem_cons_self _ _
      · exact Or.inr (List.mem_cons_of_mem _ h1)

/-- A PDF document named `nota.pdf` of 10 bytes. -/
def notaA : File := ⟨"nota.pdf", 10, "application/pdf"⟩

/-- A distinct PDF document also named `nota.pdf`, of 20 bytes. -/
def notaB : File := ⟨"nota.pdf", 20, "application/pdf"⟩

/-- An approving verdict. -/
def verdictA : AnalysisResult := ⟨.DEFERIDO, "documento valido", []⟩

/-- A rejecting verdict, distinguishable from `verdictA`. -/
def verdictB : AnalysisResult :=
  ⟨.INDEFERIDO, "documento rejeitado", ["CNPJ invalido"]⟩

/-- An idle app whose selection holds the two same-named documents. -/
def sameNameSel : AppState := ⟨[notaA, notaB], .idle, [], [], none, []⟩

/-- Outcomes where both documents' analyses succeed, with
distinguishable verdicts. -/
def bothSucceed : File → Except Thrown AnalysisResult :=
  fun f => if f.size == 10 then .ok verdictA else .ok verdictB

/-- Outcomes where the 10-byte document's analysis fails and the
20-byte one's succeeds. -/
def firstFails : File → Except Thrown AnalysisResult :=
  fun f => if f.size == 10 then .error (.error "timeout") else .ok verdictB

/-- Claim C1: the claim (and §8 of the spec) requires that for a
selection holding two distinct documents sharing a name but differing
in size, each completion updates only the entry of the document it
belongs to and the two results are tracked separately.  The code keys
the state map by `file.name` alone, so the two documents share one
entry: after a batch in which both analyses succeed, the final map
holds a single merged entry carrying only the later completion's
verdict, and the second document's completion overwrites the entry the
first document's completion had just written. -/
theorem c1_state_map_merges_same_name_docs :
    processFiles [] [notaA, notaB] = [notaA, notaB] ∧
    (handleAnalyzeClick bothSucceed true "t" [notaA, notaB]
        sameNameSel).analysisStates =
      [("nota.pdf", ⟨.success, some verdictB, none⟩)] ∧
    mapGet ((settle bothSucceed true "t"
        (settle bothSucceed true "t" (batchInit sameNameSel) notaA)
        notaB).analysisStates) notaA.name ≠
      mapGet ((settle bothSucceed true "t" (batchInit sameNameSel)
        notaA).analysisStates) notaA.name := by
  refine ⟨by decide, by decide, by decide⟩

/-- Claim C2, counterexample: with the same-named selection of two
documents, one failed call and one succeeded call (k = 1) leave zero
documents in FAILED state: the success completion overwrote the shared
entry. -/
theorem c2_same_name_counts_counterexample :
    [notaA, notaB].countP (fun f => isFailure (firstFails f)) = 1 ∧
    (handleAnalyzeClick firstFails true "t" [notaA, notaB]
        sameNameSel).appStatus = AppStatus.finished ∧
    [notaA, notaB].countP
      (failedB (handleAnalyzeClick firstFails true "t" [notaA, notaB]
        sameNameSel).analysisStates) = 0 := by
  refine ⟨by decide, by decide, by decide⟩

/-- Claim C2 (amended: the selection's document names must be pairwise
distinct — with a shared name the entries collide, see the
counterexample): starting a batch over a nonempty selection keeps the
status at analyzing through every prefix of the completion order and
sets finished only after all completions; each document's final entry
is the terminal state of its own call, so exactly the failed calls'
documents are FAILED and the succeeded calls' documents are SUCCEEDED,
for every completion order. -/
theorem c2_batch_counts_distinct_names
    (o : File → Except Thrown AnalysisResult) (p : Bool) (t : String)
    (s : AppState) (order : List File)
    (hne : s.files ≠ []) (hnd : (s.files.map File.name).Nodup)
    (hperm : order.Perm s.files) :
    (handleAnalyzeClick o p t order s).appStatus = AppStatus.finished ∧
    (∀ pre suf, order = pre ++ suf →
      (pre.foldl (settle o p t) (batchInit s)).appStatus =
        AppStatus.analyzing) ∧
    (∀ f, f ∈ s.files →
      mapGet (handleAnalyzeClick o p t order s).analysisStates f.name =
        some (terminalState (o f))) ∧
    s.files.countP
        (failedB (handleAnalyzeClick o p t order s).analysisStates)
      = s.files.countP (fun f => isFailure (o f)) ∧
    s.files.countP
        (succeededB (handleAnalyzeClick o p t order s).analysisStates)
      = s.files.countP (fun f => !isFailure (o f)) := by
  have hAC : handleAnalyzeClick o p t order s =
      { order.foldl (settle o p t) (batchInit s) with
        appStatus := AppStatus.finished } := by
    simp [handleAnalyzeClick, hne]
  have hmap : ∀ f, f ∈ s.files →
      mapGet (handleAnalyzeClick o p t order s).analysisStates f.name =
        some (terminalState (o f)) := by
    intro f hf
    rw [hAC]
    have hnd2 : (order.map File.name).Nodup :=
      ((hperm.map File.name).nodup_iff).mpr hnd
    have hf2 : f ∈ order := hperm.mem_iff.mpr hf
    exact foldl_settle_mapGet_mem o p t order (batchInit s) f hnd2 hf2
  refine ⟨by rw [hAC], ?_, hmap, ?_, ?_⟩
  · intro pre suf hps
    rw [foldl_settle_appStatus, batchInit_appStatus]
  · refine List.countP_congr (fun f hf => ?_)
    simp [failedB, hmap f hf, terminal_status_failed]
  · refine List.countP_congr (fun f hf => ?_)
    simp [succeededB, hmap f hf, terminal_status_succeeded]

/-- A PDF document distinct from `wFileB` in name. -/
def wFileA : File := ⟨"a.pdf", 1, "application/pdf"⟩

/-- A second PDF document with its own name. -/
def wFileB : File := ⟨"b.pdf", 2, "application/pdf"⟩

/-- An idle app whose selection holds the two distinct-named files. -/
def wState : AppState := ⟨[wFileA, wFileB], .idle, [], [], none, []⟩

/-- Outcomes where `a.pdf` fails with a transport timeout and `b.pdf`
succeeds. -/
def wOut : File → Except Thrown AnalysisResult :=
  fun f =>
    if f.name == "a.pdf" then .error (.error "timeout") else .ok verdictA

theorem c2_batch_counts_distinct_names_witness :
    wState.files ≠ [] ∧ (wState.files.map File.name).Nodup ∧
    [wFileB, wFileA].Perm wState.files ∧
    (handleAnalyzeClick wOut true "t" [wFileB, wFileA] wState).appStatus =
      AppStatus.finished ∧
    wState.files.countP
        (failedB (handleAnalyzeClick wOut true "t" [wFileB, wFileA]
          wState).analysisStates)
      = wState.files.countP (fun f => isFailure (wOut f)) := by
  have h := c2_batch_counts_distinct_names wOut true "t" wState
    [wFileB, wFileA] (by decide) (by decide) (by decide)
  exact ⟨by decide, by decide, by decide, h.1, h.2.2.2.1⟩

/-- Claim C3: every failure thrown by the Client call is caught at the
per-document boundary: `runAnalysisForFile` never rejects, and when
the call fails it converts the thrown value into that document's
FAILED entry carrying the user-facing message. -/
theorem c3_client_failure_caught
    (o : File → Except Thrown AnalysisResult) (p : Bool) (t : String)
    (s : AppState) (f : File) :
    (∃ s1, runAnalysisForFile o p t s f = Except.ok s1) ∧
    (∀ err, o f = .error err → ∃ s1,
      runAnalysisForFile o p t s f = Except.ok s1 ∧
      mapGet s1.analysisStates f.name =
        some ⟨.error, none,
          some ("Falha na análise: " ++ err.displayMessage)⟩) := by
  constructor
  · cases h : o f with
    | ok r =>
        exact ⟨recordSuccess p t f r { s with calls := s.calls ++ [f.name] },
          by simp [runAnalysisForFile, h, Except.map]⟩
    | error e =>
        exact ⟨recordFailure f e { s with calls := s.calls ++ [f.name] },
          by simp [runAnalysisForFile, h, Except.map]⟩
  · intro err herr
    refine ⟨recordFailure f err { s with calls := s.calls ++ [f.name] },
      ?_, ?_⟩
    · simp [runAnalysisForFile, herr, Except.map]
    · simp [recordFailure, mapGet_mapSet_self]

theorem c3_client_failure_caught_witness :
    wOut wFileA = Except.error (Thrown.error "timeout") ∧
    (∃ s1, runAnalysisForFile wOut true "t" wState wFileA = Except.ok s1 ∧
      mapGet s1.analysisStates wFileA.name =
        some ⟨.error, none, some "Falha na análise: timeout"⟩) := by
  refine ⟨rfl, ?_⟩
  obtain ⟨s1, h1, h2⟩ := (c3_client_failure_caught wOut true "t" wState
    wFileA).2 (Thrown.error "timeout") rfl
  exact ⟨s1, h1, h2.trans (by decide)⟩

/-- Claim C4: a SUCCEEDED completion appends exactly one new
HistoryEntry, prepended most-recent-first, and never rejects; when the
persistence write fails (`p = false`) the in-memory sequence still
reflects the append and the previously persisted content is untouched;
when it succeeds the full updated sequence is persisted; in both cases
the per-file state is SUCCEEDED with the verdict. -/
theorem c4_success_appends_history
    (o : File → Except Thrown AnalysisResult) (p : Bool) (t : String)
    (s : AppState) (f : File) (r : AnalysisResult) (h : o f = .ok r) :
    ∃ s1, runAnalysisForFile o p t s f = Except.ok s1 ∧
      s1.history = ⟨f.name, t, r⟩ :: s.history ∧
      mapGet s1.analysisStates f.name = some ⟨.success, some r, none⟩ ∧
      (p = false → s1.storage = s.storage) ∧
      (p = true → s1.storage = some s1.history) := by
  refine ⟨recordSuccess p t f r { s with calls := s.calls ++ [f.name] },
    by simp [runAnalysisForFile, h, Except.map], ?_, ?_, ?_, ?_⟩
  · simp [recordSuccess]
  · simp [recordSuccess, mapGet_mapSet_self]
  · intro hp
    simp [recordSuccess, hp]
  · intro hp
    simp [recordSuccess, hp]

theorem c4_success_appends_history_witness :
    wOut wFileB = Except.ok verdictA ∧
    (∃ s1, runAnalysisForFile wOut false "t" wState wFileB = Except.ok s1 ∧
      s1.history = ⟨wFileB.name, "t", verdictA⟩ :: wState.history ∧
      mapGet s1.analysisStates wFileB.name =
        some ⟨.success, some verdictA, none⟩ ∧
      (false = false → s1.storage = wState.storage) ∧
      (false = true → s1.storage = some s1.history)) :=
  ⟨rfl,
    c4_success_appends_history wOut false "t" wState wFileB verdictA rfl⟩

/-- Claim C5: loading history at startup installs the deserialised
sequence when `JSON.parse` succeeds; on a blob where deserialisation
fails, the blob is deleted from storage and the in-memory history is
the empty sequence, the error being absorbed by the catch clause. -/
theorem c5_corrupt_history_discarded
    (parse : String → Option (List HistoryItem)) (blob : String) :
    (∀ h0, parse blob = some h0 →
      loadHistory parse (some blob) = (h0, some blob)) ∧
    (parse blob = none → loadHistory parse (some blob) = ([], none)) := by
  constructor
  · intro h0 hh
    simp [loadHistory, hh]
  · intro hh
    simp [loadHistory, hh]

/-- A concrete deserialiser that only accepts the empty-array blob. -/
def c5parse : String → Option (List HistoryItem) :=
  fun s => if s == "[]" then some [] else none

theorem c5_corrupt_history_discarded_witness :
    c5parse "corrupt" = none ∧
    loadHistory c5parse (some "corrupt") = ([], none) :=
  ⟨by decide, (c5_corrupt_history_discarded c5parse "corrupt").2 (by decide)⟩

/-- A PDF document whose analysis already succeeded. -/
def retryDoc : File := ⟨"ok.pdf", 5, "application/pdf"⟩

/-- A finished app in which `retryDoc` is in SUCCEEDED state. -/
def retryState : AppState :=
  ⟨[retryDoc], .finished,
    [("ok.pdf", ⟨.success, some verdictA, none⟩)], [], none, []⟩

/-- Outcomes where every analysis fails with a transport timeout. -/
def retryOut : File → Except Thrown AnalysisResult :=
  fun _ => .error (.error "timeout")

/-- Claim C6, counterexample: the claim says retry applied to a
document whose state is not FAILED is a no-op; the code performs the
retry unconditionally, so retrying a document in SUCCEEDED state
changes the state (it re-runs the analysis). -/
theorem c6_retry_not_noop_counterexample :
    mapGet retryState.analysisStates "ok.pdf" =
      some ⟨.success, some verdictA, none⟩ ∧
    handleRetryAnalysis retryOut true "t" retryDoc retryState ≠
      retryState := by
  refine ⟨by decide, by decide⟩

/-- Claim C6 (amended: the retry is unconditional — the FAILED
precondition is enforced only by the UI, which offers the retry button
only on FAILED entries; applied to a non-FAILED document the code
re-runs the analysis rather than doing nothing): retry resets only the
targeted document's entry to ANALYZING, re-issues exactly one Client
call for it, installs that call's terminal state for it, and leaves
every other key's entry untouched throughout. -/
theorem c6_retry_targets_only_document
    (o : File → Except Thrown AnalysisResult) (p : Bool) (t : String)
    (f : File) (s : AppState) :
    mapGet (retryMark f s).analysisStates f.name =
      some ⟨.analyzing, none, none⟩ ∧
    (handleRetryAnalysis o p t f s).appStatus = AppStatus.finished ∧
    mapGet (handleRetryAnalysis o p t f s).analysisStates f.name =
      some (terminalState (o f)) ∧
    (handleRetryAnalysis o p t f s).calls = s.calls ++ [f.name] ∧
    (∀ k, k ≠ f.name →
      mapGet (retryMark f s).analysisStates k = mapGet s.analysisStates k ∧
      mapGet (handleRetryAnalysis o p t f s).analysisStates k =
        mapGet s.analysisStates k) := by
  refine ⟨?_, rfl, ?_, ?_, ?_⟩
  · simp [retryMark, mapGet_mapSet_self]
  · exact settle_mapGet_self o p t (retryMark f s) f
  · exact settle_calls o p t (retryMark f s) f
  · intro k hk
    constructor
    · simp [retryMark, mapGet_mapSet_ne _ _ _ _ hk]
    · exact (settle_mapGet_ne o p t (retryMark f s) f k hk).trans
        (by simp [retryMark, mapGet_mapSet_ne _ _ _ _ hk])

theorem c6_retry_targets_only_document_witness :
    ("b.pdf" : String) ≠ wFileA.name ∧
    mapGet (handleRetryAnalysis wOut true "t" wFileA wState).analysisStates
      "b.pdf" = mapGet wState.analysisStates "b.pdf" ∧
    (handleRetryAnalysis wOut true "t" wFileA wState).calls =
      wState.calls ++ [wFileA.name] := by
  have h := c6_retry_targets_only_document wOut true "t" wFileA wState
  exact ⟨by decide, (h.2.2.2.2 "b.pdf" (by decide)).2, h.2.2.2.1⟩

/-- Claim C7, counterexample: the claim says the client fails with a
ResponseFormatError exactly when the reply cannot be parsed against
the expected schema.  The code only catches `JSON.parse` throws and
casts the parsed value without validation: the reply `[]` is valid
JSON that does not conform to the schema, yet `analyzeInvoice` returns
it as the verdict instead of failing. -/
theorem c7_schema_not_validated_counterexample :
    analyzeInvoice (some "key") (Except.ok "[]") =
      Except.ok (JsonValue.arr []) ∧
    matchesSchema (JsonValue.arr []) = false :=
  ⟨rfl, rfl⟩

/-- Claim C7 (amended: the format failure is keyed to JSON
well-formedness, not schema conformity): the client fails with a
ConfigurationError exactly when no credential is available (unset or
empty); given a service reply text and a credential, it fails with a
ResponseFormatError exactly when the trimmed reply is not parseable as
JSON at all; a parseable reply is returned verbatim as the verdict,
with no schema validation. -/
theorem c7_client_error_conditions (apiKey : Option String)
    (reply : Except String String) :
    ((∃ m, analyzeInvoice apiKey reply =
        Except.error (ClientError.configurationError m)) ↔
      (apiKey = none ∨ apiKey = some "")) ∧
    (∀ text, reply = Except.ok text →
      ((∃ m, analyzeInvoice apiKey reply =
          Except.error (ClientError.responseFormatError m)) ↔
        (¬(apiKey = none ∨ apiKey = some "") ∧
          jsonParse (jsTrim text.data) = none))) ∧
    (∀ text v, reply = Except.ok text →
      ¬(apiKey = none ∨ apiKey = some "") →
      jsonParse (jsTrim text.data) = some v →
      analyzeInvoice apiKey reply = Except.ok v) := by
  by_cases hk : apiKey = none ∨ apiKey = some ""
  · have heq : analyzeInvoice apiKey reply =
        Except.error (ClientError.configurationError
          "API key not found. Please set the API_KEY environment variable.") := by
      simp only [analyzeInvoice]
      rw [if_pos hk]
    refine ⟨?_, ?_, ?_⟩
    · rw [heq]
      constructor
      · intro _
        exact hk
      · intro _
        exact ⟨_, rfl⟩
    · intro text htext
      rw [heq]
      constructor
      · rintro ⟨m, hm⟩
        simp at hm
      · rintro ⟨hnk, _⟩
        exact absurd hk hnk
    · intro text v htext hnk hpv
      exact absurd hk hnk
  · cases reply with
    | error m =>
        have heq : analyzeInvoice apiKey (Except.error m) =
            Except.error (ClientError.transportError m) := by
          simp only [analyzeInvoice]
          rw [if_neg hk]
        refine ⟨?_, ?_, ?_⟩
        · rw [heq]
          constructor
          · rintro ⟨m2, hm⟩
            simp at hm
          · intro hc
            exact absurd hc hk
        · intro text htext
          cases htext
        · intro text v htext
          cases htext
    | ok text0 =>
        cases hp : jsonParse (jsTrim text0.data) with
        | some v0 =>
            have heq : analyzeInvoice apiKey (Except.ok text0) =
                Except.ok v0 := by
              simp only [analyzeInvoice]
              rw [if_neg hk]
              simp [hp]
            refine ⟨?_, ?_, ?_⟩
            · rw [heq]
              constructor
              · rintro ⟨m2, hm⟩
                simp at hm
              · intro hc
                exact absurd hc hk
            · intro text htext
              injection htext with htx
              subst htx
              rw [heq]
              constructor
              · rintro ⟨m2, hm⟩
                simp at hm
              · rintro ⟨_, hpn⟩
                rw [hp] at hpn
                cases hpn
            · intro text v htext hnk hpv
              injection htext with htx
              subst htx
              rw [hp] at hpv
              injection hpv with hv
              subst hv
              exact heq
        | none =>
            have heq : analyzeInvoice apiKey (Except.ok text0) =
                Except.error (ClientError.responseFormatError
                  "A resposta da IA não estava no formato JSON esperado.") := by
              simp only [analyzeInvoice]
              rw [if_neg hk]
              simp [hp]
            refine ⟨?_, ?_, ?_⟩
            · rw [heq]
              constructor
              · rintro ⟨m2, hm⟩
                simp at hm
              · intro hc
                exact absurd hc hk
            · intro text htext
              injection htext with htx
              subst htx
              rw [heq]
              constructor
              · intro _
                exact ⟨hk, hp⟩
              · intro _
                exact ⟨_, rfl⟩
            · intro text v htext hnk hpv
              injection htext with htx
              subst htx
              rw [hp] at hpv
              cases hpv

theorem c7_client_error_conditions_witness :
    ((none : Option String) = none ∨ (none : Option String) = some "") ∧
    (∃ m, analyzeInvoice none (Except.ok "x") =
      Except.error (ClientError.configurationError m)) :=
  ⟨Or.inl rfl,
    ((c7_client_error_conditions none (Except.ok "x")).1).mpr (Or.inl rfl)⟩

/-- Claim C8: the selection add operation equals the spec's store
contract — existing items first in order, then those incoming PDFs
whose (name, size) pair is fresh with respect to both the selection
and the earlier-kept incoming items, in input order; in particular
adding the same (name, size) pair twice yields size 1 and adding two
PDFs with equal name but different sizes yields size 2. -/
theorem c8_selection_dedup_by_name_size :
    (∀ sel inc, processFiles sel inc = addSpec sel inc) ∧
    (∀ f : File, f.type = "application/pdf" →
      (processFiles [] [f, f]).length = 1) ∧
    (∀ f g : File, f.type = "application/pdf" →
      g.type = "application/pdf" → f.name = g.name → f.size ≠ g.size →
      (processFiles [] [f, g]).length = 2) := by
  refine ⟨processFiles_eq_addSpec, ?_, ?_⟩
  · intro f hf
    simp [processFiles, hf]
  · intro f g hf hg hname hsize
    simp [processFiles, hf, hg, hname, hsize]

theorem c8_selection_dedup_by_name_size_witness :
    (notaA.type = "application/pdf" ∧
      (processFiles [] [notaA, notaA]).length = 1) ∧
    (notaA.type = "application/pdf" ∧ notaB.type = "application/pdf" ∧
      notaA.name = notaB.name ∧ notaA.size ≠ notaB.size ∧
      (processFiles [] [notaA, notaB]).length = 2) :=
  ⟨⟨rfl, c8_selection_dedup_by_name_size.2.1 notaA rfl⟩,
    rfl, rfl, rfl, by decide,
    c8_selection_dedup_by_name_size.2.2 notaA notaB rfl rfl rfl (by decide)⟩

/-- Claim C9: only documents whose declared type is PDF enter the
selection — presenting a sequence is the same as presenting only its
PDFs, every member of the result was already selected or is a PDF, and
the operation is total (a dropped non-PDF surfaces no error). -/
theorem c9_only_pdf_accepted :
    (∀ sel inc, processFiles sel inc =
      processFiles sel
        (inc.filter (fun f => f.type == "application/pdf"))) ∧
    (∀ sel inc f, f ∈ processFiles sel inc →
      f ∈ sel ∨ f.type = "application/pdf") := by
  constructor
  · intro sel inc
    have hff : (inc.filter (fun f => f.type == "application/pdf")).filter
        (fun f => f.type == "application/pdf") =
        inc.filter (fun f => f.type == "application/pdf") := by
      rw [List.filter_filter]
      simp
    simp only [processFiles, hff]
  · intro sel inc f hmem
    by_cases he : inc.filter (fun f2 => f2.type == "application/pdf") = []
    · left
      simpa [processFiles, he] using hmem
    · have h2 : f ∈ sel ∨
          f ∈ inc.filter (fun f2 => f2.type == "application/pdf") := by
        apply mem_dedup_foldl _ sel f
        simpa [processFiles, he] using hmem
      rcases h2 with h3 | h3
      · exact Or.inl h3
      · right
        exact beq_iff_eq.mp (List.mem_filter.mp h3).2

/-- A non-PDF document. -/
def txtFile : File := ⟨"doc.txt", 3, "text/plain"⟩

theorem c9_only_pdf_accepted_witness :
    wFileA ∈ processFiles [] [wFileA, txtFile] ∧
    (wFileA ∈ ([] : List File) ∨ wFileA.type = "application/pdf") ∧
    txtFile ∉ processFiles [] [wFileA, txtFile] := by
  refine ⟨by decide,
    c9_only_pdf_accepted.2 [] [wFileA, txtFile] wFileA (by decide),
    by decide⟩

/-- Claim C10: triggering batch analysis with an empty selection is a
no-op — the returned state is the input state, so the status, the
per-file map, the ghost call log and the history are all unchanged. -/
theorem c10_empty_selection_noop
    (o : File → Except Thrown AnalysisResult) (p : Bool) (t : String)
    (order : List File) (s : AppState) (h : s.files = []) :
    handleAnalyzeClick o p t order s = s := by
  simp [handleAnalyzeClick, h]

/-- An idle app with an empty selection. -/
def emptySel : AppState := ⟨[], .idle, [], [], none, []⟩

theorem c10_empty_selection_noop_witness :
    emptySel.files = [] ∧
    handleAnalyzeClick bothSucceed true "t" [] emptySel = emptySel :=
  ⟨rfl, c10_empty_selection_noop bothSucceed true "t" [] emptySel rfl⟩

end InvoiceApp
